import Mathlib

/-!
Verification of the WebRTC signaling relay server (src/server.js).

The server keeps two in-memory maps:
  rooms      : Map roomId -> Set socketId   (forward directory)
  socketRoom : Map socketId -> roomId       (reverse index)
and reacts to socket events `join-room`, `offer`, `answer`,
`ice-candidate` and `disconnect`, plus the HTTP endpoint
`POST /create-room`.

JS `Map`s are embedded as association lists with first-match lookup
(keys are unique in every reachable state), JS `Set`s as duplicate-free
lists in insertion order.  Message payloads are embedded as a small JS
value type `JVal` so that JS truthiness, `typeof` checks and the
destructuring of a missing payload (which throws a TypeError) are all
represented faithfully: a handler returns `none` exactly when the JS
handler would throw.

Outgoing messages are recorded as `Emit` values:
  `selfEmit ev pl`    for `socket.emit(ev, pl)`        (to the sender)
  `toPeer t ev pl`    for `socket.to(t).emit(ev, pl)`  with a socket id,
                      delivered to exactly the socket `t`
  `toRoom r ev pl`    for `socket.to(r).emit(ev, pl)`  with a room id,
                      delivered to the room's members except the sender
"B receives the message" is read, at the spec's own level of
abstraction, as "the handler's output contains a `toPeer B` emit".
-/

/-- A JavaScript value, as far as the signaling handlers inspect one. -/
inductive JVal where
  | undef : JVal
  | null : JVal
  | bool : Bool → JVal
  | num : Int → JVal
  | str : String → JVal
  | obj : List (String × JVal) → JVal

/-- JS truthiness: `undefined`, `null`, `false`, `0` and `""` are falsy;
every object is truthy. -/
def truthy : JVal → Bool
  | .undef => false
  | .null => false
  | .bool b => b
  | .num n => n != 0
  | .str s => s != ""
  | .obj _ => true

/-- `typeof v === 'string'`. -/
def isString : JVal → Bool
  | .str _ => true
  | _ => false

/-- First-match field lookup in a JS object literal. -/
def jfield : List (String × JVal) → String → Option JVal
  | [], _ => none
  | (k, v) :: rest, f => if k = f then some v else jfield rest f

/-- Reading property `f` of a payload, as destructuring does:
`none` means the access throws (payload is `undefined` or `null`);
reading an absent field of an object, or any field of another
primitive, yields `undefined`. -/
def jget (p : JVal) (f : String) : Option JVal :=
  match p with
  | .undef => none
  | .null => none
  | .obj fs => some ((jfield fs f).getD .undef)
  | _ => some .undef

abbrev SocketId := String
abbrev RoomId := String

/-- `Map.get`: first (unique) matching key. -/
def alGet {α : Type} : List (String × α) → String → Option α
  | [], _ => none
  | (k', v) :: rest, k => if k' = k then some v else alGet rest k

/-- `Map.set`: replace the value at an existing key, else append. -/
def alSet {α : Type} : List (String × α) → String → α → List (String × α)
  | [], k, v => [(k, v)]
  | (k', v') :: rest, k, v =>
      if k' = k then (k, v) :: rest else (k', v') :: alSet rest k v

/-- `Map.delete`. -/
def alDelete {α : Type} : List (String × α) → String → List (String × α)
  | [], _ => []
  | (k', v') :: rest, k =>
      if k' = k then alDelete rest k else (k', v') :: alDelete rest k

/-- `Set.add`: a no-op when the element is present, else append. -/
def setAdd (s : List SocketId) (x : SocketId) : List SocketId :=
  if x ∈ s then s else s ++ [x]

/-- `Set.delete`. -/
def setDel (s : List SocketId) (x : SocketId) : List SocketId :=
  s.filter (fun y => y ≠ x)

/-- The server's mutable state: `rooms` and `socketRoom` (server.js
lines 35-36). -/
structure SrvState where
  rooms : List (RoomId × List SocketId)
  socketRoom : List (SocketId × RoomId)
deriving DecidableEq

/-- The state at server start: both maps empty. -/
def initState : SrvState := ⟨[], []⟩

/-- Payload of an outgoing message. -/
inductive EPayload where
  | users : List SocketId → EPayload          -- the `room-users` list
  | peer : SocketId → EPayload                -- `user-joined` / `user-left`
  | relay : SocketId → JVal → EPayload        -- from-field plus the opaque
                                              -- sdp/candidate blob, verbatim
/-- An outgoing message, as emitted by a handler. -/
inductive Emit where
  | selfEmit : String → EPayload → Emit
  | toPeer : SocketId → String → EPayload → Emit
  | toRoom : RoomId → String → EPayload → Emit

/-- The `join-room` handler (server.js lines 82-101).  Destructures
`roomId` from the payload (throws on a missing payload), drops falsy or
non-string room ids, otherwise adds the sender to the room's set
(creating it via `getRoomSet` if absent), points the reverse index at
the room, replies with the other members and notifies the room. -/
def handleJoinRoom (st : SrvState) (sid : SocketId) (p : JVal) :
    Option (SrvState × List Emit) :=
  match jget p "roomId" with
  | none => none
  | some ridv =>
    match ridv with
    | .str rid =>
      if rid = "" then some (st, [])
      else
        let roomSet := (alGet st.rooms rid).getD []
        let roomSet' := setAdd roomSet sid
        let others := roomSet'.filter (fun x => x ≠ sid)
        some ({ rooms := alSet st.rooms rid roomSet',
                socketRoom := alSet st.socketRoom sid rid },
              [Emit.selfEmit "room-users" (.users others),
               Emit.toRoom rid "user-joined" (.peer sid)])
    | _ => some (st, [])

/-- The `offer` handler (server.js lines 103-114).  Drops the message
when a required field is falsy, or when the sender's room is falsy or
differs from the target's room; otherwise forwards the sdp blob to the
target with the sender's id as `from`. -/
def handleOffer (st : SrvState) (sid : SocketId) (p : JVal) :
    Option (SrvState × List Emit) :=
  match jget p "target", jget p "sdp" with
  | some targetv, some sdpv =>
    if truthy targetv && truthy sdpv then
      match alGet st.socketRoom sid with
      | none => some (st, [])
      | some fr =>
        if fr = "" then some (st, [])
        else
          match targetv with
          | .str t =>
            if alGet st.socketRoom t = some fr then
              some (st, [Emit.toPeer t "offer" (.relay sid sdpv)])
            else some (st, [])
          | _ => some (st, [])       -- a non-string key never hits the map
    else some (st, [])
  | _, _ => none

/-- The `answer` handler (server.js lines 116-126): identical to the
offer handler except for the event name. -/
def handleAnswer (st : SrvState) (sid : SocketId) (p : JVal) :
    Option (SrvState × List Emit) :=
  match jget p "target", jget p "sdp" with
  | some targetv, some sdpv =>
    if truthy targetv && truthy sdpv then
      match alGet st.socketRoom sid with
      | none => some (st, [])
      | some fr =>
        if fr = "" then some (st, [])
        else
          match targetv with
          | .str t =>
            if alGet st.socketRoom t = some fr then
              some (st, [Emit.toPeer t "answer" (.relay sid sdpv)])
            else some (st, [])
          | _ => some (st, [])
    else some (st, [])
  | _, _ => none

/-- The `ice-candidate` handler (server.js lines 128-138): like the
offer handler with field `candidate`. -/
def handleIceCandidate (st : SrvState) (sid : SocketId) (p : JVal) :
    Option (SrvState × List Emit) :=
  match jget p "target", jget p "candidate" with
  | some targetv, some candv =>
    if truthy targetv && truthy candv then
      match alGet st.socketRoom sid with
      | none => some (st, [])
      | some fr =>
        if fr = "" then some (st, [])
        else
          match targetv with
          | .str t =>
            if alGet st.socketRoom t = some fr then
              some (st, [Emit.toPeer t "ice-candidate" (.relay sid candv)])
            else some (st, [])
          | _ => some (st, [])
    else some (st, [])
  | _, _ => none

/-- The `disconnect` handler (server.js lines 140-157).  A falsy room
entry returns early without any cleanup; otherwise the socket is
removed from its room's set (the room is deleted when the set becomes
empty), `user-left` is broadcast to the room, and the reverse-index
entry is deleted. -/
def handleDisconnect (st : SrvState) (sid : SocketId) : SrvState × List Emit :=
  match alGet st.socketRoom sid with
  | none => (st, [])
  | some rid =>
    if rid = "" then (st, [])
    else
      match alGet st.rooms rid with
      | none => ({ st with socketRoom := alDelete st.socketRoom sid }, [])
      | some roomSet =>
        let roomSet' := setDel roomSet sid
        let rooms' := if roomSet'.length = 0 then alDelete st.rooms rid
                      else alSet st.rooms rid roomSet'
        ({ rooms := rooms', socketRoom := alDelete st.socketRoom sid },
         [Emit.toRoom rid "user-left" (.peer sid)])

/-- `POST /create-room` (server.js lines 43-48): registers a fresh
random id with an empty member set.  The random id is a parameter. -/
def handleCreateRoom (st : SrvState) (rid : RoomId) : SrvState :=
  { st with rooms := alSet st.rooms rid [] }

/-- One external event of the server's lifetime. -/
inductive Event where
  | join : SocketId → JVal → Event
  | offer : SocketId → JVal → Event
  | answer : SocketId → JVal → Event
  | ice : SocketId → JVal → Event
  | disconnect : SocketId → Event
  | createRoom : RoomId → Event

/-- The state transition for one event; `none` when the handler throws. -/
def stepEv (st : SrvState) : Event → Option SrvState
  | .join sid p => (handleJoinRoom st sid p).map Prod.fst
  | .offer sid p => (handleOffer st sid p).map Prod.fst
  | .answer sid p => (handleAnswer st sid p).map Prod.fst
  | .ice sid p => (handleIceCandidate st sid p).map Prod.fst
  | .disconnect sid => some (handleDisconnect st sid).1
  | .createRoom rid => some (handleCreateRoom st rid)

/-- States reachable from the empty initial state by events allowed by
`P` (`P` restricts which event may fire in which state). -/
inductive ReachableW (P : SrvState → Event → Prop) : SrvState → Prop where
  | init : ReachableW P initState
  | step {st e st'} : ReachableW P st → P st e → stepEv st e = some st' →
      ReachableW P st'

/-- Any event is allowed: the reachable states of the running server. -/
def AnyEv (_ : SrvState) (_ : Event) : Prop := True

/-- The forward/reverse agreement invariant of the spec: for every room
in the directory, membership coincides with the reverse index. -/
def Agree (st : SrvState) : Prop :=
  ∀ r S m, alGet st.rooms r = some S →
    (m ∈ S ↔ alGet st.socketRoom m = some r)

/-- Both connections are currently mapped to the same room identifier. -/
def SameRoom (st : SrvState) (a b : SocketId) : Prop :=
  ∃ r, alGet st.socketRoom a = some r ∧ alGet st.socketRoom b = some r


/-! ### Laws of the map and set embeddings -/

theorem alGet_alSet_self {α : Type} (m : List (String × α)) (k : String) (v : α) :
    alGet (alSet m k v) k = some v := by
  induction m with
  | nil => simp [alGet, alSet]
  | cons hd tl ih =>
    obtain ⟨k', v'⟩ := hd
    by_cases h : k' = k
    · simp [alGet, alSet, h]
    · simp [alGet, alSet, h, ih]

theorem alGet_alSet_ne {α : Type} (m : List (String × α)) {k k' : String}
    (v : α) (h : k' ≠ k) : alGet (alSet m k v) k' = alGet m k' := by
  have h' : k ≠ k' := Ne.symm h
  induction m with
  | nil => simp [alGet, alSet, h']
  | cons hd tl ih =>
    obtain ⟨k'', v''⟩ := hd
    by_cases hk : k'' = k
    · subst hk
      simp [alGet, alSet, h']
    · simp [alGet, alSet, hk, ih]

theorem alGet_alDelete_self {α : Type} (m : List (String × α)) (k : String) :
    alGet (alDelete m k) k = none := by
  induction m with
  | nil => simp [alGet, alDelete]
  | cons hd tl ih =>
    obtain ⟨k', v'⟩ := hd
    by_cases h : k' = k
    · simp [alGet, alDelete, h, ih]
    · simp [alGet, alDelete, h, ih]

theorem alGet_alDelete_ne {α : Type} (m : List (String × α)) {k k' : String}
    (h : k' ≠ k) : alGet (alDelete m k) k' = alGet m k' := by
  have h' : k ≠ k' := Ne.symm h
  induction m with
  | nil => simp [alGet, alDelete]
  | cons hd tl ih =>
    obtain ⟨k'', v''⟩ := hd
    by_cases hk : k'' = k
    · subst hk
      simp [alGet, alDelete, h', ih]
    · simp [alGet, alDelete, hk, ih]

theorem mem_setAdd {s : List SocketId} {x y : SocketId} :
    y ∈ setAdd s x ↔ y ∈ s ∨ y = x := by
  unfold setAdd
  by_cases h : x ∈ s
  · simp only [if_pos h]
    constructor
    · exact Or.inl
    · rintro (hy | rfl)
      · exact hy
      · exact h
  · simp [if_neg h]

theorem setAdd_ne_nil (s : List SocketId) (x : SocketId) : setAdd s x ≠ [] := by
  unfold setAdd
  by_cases h : x ∈ s
  · simp only [if_pos h]
    rintro rfl
    simp at h
  · simp [if_neg h]

theorem mem_setDel {s : List SocketId} {x y : SocketId} :
    y ∈ setDel s x ↔ y ∈ s ∧ y ≠ x := by
  simp [setDel]

theorem filter_setAdd_self (s : List SocketId) (x : SocketId) :
    (setAdd s x).filter (fun y => y ≠ x) = s.filter (fun y => y ≠ x) := by
  unfold setAdd
  by_cases h : x ∈ s
  · simp [if_pos h]
  · simp [if_neg h, List.filter_append]

/-! ### Characterizations of the handlers

Each lemma lists the mutually exclusive outcomes of one handler; the
invariant proofs below do their case analysis through these. -/

/-- Outcomes of the join-room handler: either the message was dropped
with no state change, or a valid non-empty string room id was joined. -/
theorem handleJoinRoom_cases {st : SrvState} {sid : SocketId} {p : JVal}
    {st' : SrvState} {es : List Emit}
    (h : handleJoinRoom st sid p = some (st', es)) :
    (st' = st ∧ es = []) ∨
    ∃ rid, jget p "roomId" = some (.str rid) ∧ rid ≠ "" ∧
      st' = { rooms := alSet st.rooms rid
                (setAdd ((alGet st.rooms rid).getD []) sid),
              socketRoom := alSet st.socketRoom sid rid } ∧
      es = [Emit.selfEmit "room-users"
              (.users ((setAdd ((alGet st.rooms rid).getD []) sid).filter
                (fun x => x ≠ sid))),
            Emit.toRoom rid "user-joined" (.peer sid)] := by
  unfold handleJoinRoom at h
  cases hq : jget p "roomId" with
  | none => rw [hq] at h; cases h
  | some ridv =>
    rw [hq] at h
    cases ridv with
    | str rid =>
      dsimp only at h
      by_cases hrid : rid = ""
      · rw [if_pos hrid] at h
        simp only [Option.some_inj, Prod.mk.injEq] at h
        exact Or.inl ⟨h.1.symm, h.2.symm⟩
      · rw [if_neg hrid] at h
        simp only [Option.some_inj, Prod.mk.injEq] at h
        exact Or.inr ⟨rid, rfl, hrid, h.1.symm, h.2.symm⟩
    | undef =>
      simp only [Option.some_inj, Prod.mk.injEq] at h
      exact Or.inl ⟨h.1.symm, h.2.symm⟩
    | null =>
      simp only [Option.some_inj, Prod.mk.injEq] at h
      exact Or.inl ⟨h.1.symm, h.2.symm⟩
    | bool b =>
      simp only [Option.some_inj, Prod.mk.injEq] at h
      exact Or.inl ⟨h.1.symm, h.2.symm⟩
    | num n =>
      simp only [Option.some_inj, Prod.mk.injEq] at h
      exact Or.inl ⟨h.1.symm, h.2.symm⟩
    | obj fs =>
      simp only [Option.some_inj, Prod.mk.injEq] at h
      exact Or.inl ⟨h.1.symm, h.2.symm⟩

/-- Outcomes of the disconnect handler. -/
theorem handleDisconnect_cases (st : SrvState) (sid : SocketId) :
    (handleDisconnect st sid = (st, []) ∧
      (alGet st.socketRoom sid = none ∨ alGet st.socketRoom sid = some "")) ∨
    ∃ rid, alGet st.socketRoom sid = some rid ∧ rid ≠ "" ∧
      ((alGet st.rooms rid = none ∧
         handleDisconnect st sid =
           ({ st with socketRoom := alDelete st.socketRoom sid }, [])) ∨
       ∃ S, alGet st.rooms rid = some S ∧
         handleDisconnect st sid =
           ({ rooms := if (setDel S sid).length = 0 then alDelete st.rooms rid
                       else alSet st.rooms rid (setDel S sid),
              socketRoom := alDelete st.socketRoom sid },
            [Emit.toRoom rid "user-left" (.peer sid)])) := by
  unfold handleDisconnect
  cases hq : alGet st.socketRoom sid with
  | none => exact Or.inl ⟨rfl, Or.inl rfl⟩
  | some rid =>
    dsimp only
    by_cases hrid : rid = ""
    · subst hrid
      rw [if_pos rfl]
      exact Or.inl ⟨rfl, Or.inr rfl⟩
    · rw [if_neg hrid]
      cases hr : alGet st.rooms rid with
      | none => exact Or.inr ⟨rid, rfl, hrid, Or.inl ⟨hr, rfl⟩⟩
      | some S => exact Or.inr ⟨rid, rfl, hrid, Or.inr ⟨S, hr, rfl⟩⟩

/-- The offer handler never changes the state. -/
theorem handleOffer_state {st : SrvState} {sid : SocketId} {p : JVal}
    {st' : SrvState} {es : List Emit}
    (h : handleOffer st sid p = some (st', es)) : st' = st := by
  unfold handleOffer at h
  repeat' split at h
  all_goals simp_all

/-- The answer handler never changes the state. -/
theorem handleAnswer_state {st : SrvState} {sid : SocketId} {p : JVal}
    {st' : SrvState} {es : List Emit}
    (h : handleAnswer st sid p = some (st', es)) : st' = st := by
  unfold handleAnswer at h
  repeat' split at h
  all_goals simp_all

/-- The ice-candidate handler never changes the state. -/
theorem handleIceCandidate_state {st : SrvState} {sid : SocketId} {p : JVal}
    {st' : SrvState} {es : List Emit}
    (h : handleIceCandidate st sid p = some (st', es)) : st' = st := by
  unfold handleIceCandidate at h
  repeat' split at h
  all_goals simp_all

/-- Unpacking `stepEv` for the message-handler events. -/
theorem map_fst_eq_some {p : Option (SrvState × List Emit)} {st' : SrvState}
    (h : p.map Prod.fst = some st') : ∃ es, p = some (st', es) := by
  cases p with
  | none => cases h
  | some pr =>
    obtain ⟨a, b⟩ := pr
    have h' : some a = some st' := h
    have ha : a = st' := by injection h'
    exact ⟨b, by rw [ha]⟩

/-! ### Event classes and invariants -/

/-- Only join-room and disconnect events, with no join from a
connection that is currently mapped to a different room. -/
def C1Allowed (st : SrvState) : Event → Prop
  | .join sid p => ∀ rid, jget p "roomId" = some (.str rid) → rid ≠ "" →
      ∀ r, alGet st.socketRoom sid = some r → r = rid
  | .disconnect _ => True
  | _ => False

/-- Only join-room and disconnect events, with no restriction. -/
def JoinDisc (_ : SrvState) : Event → Prop
  | .join _ _ => True
  | .disconnect _ => True
  | _ => False

/-- Every event except the create-room provisioning endpoint. -/
def NoCreate (_ : SrvState) : Event → Prop
  | .createRoom _ => False
  | _ => True

/-- The inductive form of the agreement invariant: the reverse index
points into an existing room containing the connection, and every room
member is indexed to that room. -/
def InvC1 (st : SrvState) : Prop :=
  (∀ m r, alGet st.socketRoom m = some r →
     ∃ S, alGet st.rooms r = some S ∧ m ∈ S) ∧
  (∀ r S m, alGet st.rooms r = some S → m ∈ S →
     alGet st.socketRoom m = some r)

theorem invC1_agree {st : SrvState} (h : InvC1 st) : Agree st := by
  obtain ⟨hA, hB⟩ := h
  intro r S m hrS
  constructor
  · exact hB r S m hrS
  · intro hm
    obtain ⟨S', hS', hm'⟩ := hA m r hm
    rw [hrS] at hS'
    have e : S = S' := by injection hS'
    rw [e]
    exact hm'

/-- A join with no room switch preserves the agreement invariant. -/
theorem InvC1_join {st st' : SrvState} {sid : SocketId} {p : JVal}
    {es : List Emit} (hinv : InvC1 st)
    (hns : ∀ rid, jget p "roomId" = some (.str rid) → rid ≠ "" →
      ∀ r, alGet st.socketRoom sid = some r → r = rid)
    (h : handleJoinRoom st sid p = some (st', es)) : InvC1 st' := by
  rcases handleJoinRoom_cases h with ⟨rfl, _⟩ | ⟨rid, hq, hrid, rfl, _⟩
  · exact hinv
  · obtain ⟨invA, invB⟩ := hinv
    have hns' : ∀ r, alGet st.socketRoom sid = some r → r = rid :=
      hns rid hq hrid
    constructor
    · intro m r hm
      dsimp only at hm ⊢
      by_cases hms : m = sid
      · rw [hms, alGet_alSet_self] at hm
        have hr : rid = r := by injection hm
        subst hr
        exact ⟨setAdd ((alGet st.rooms rid).getD []) sid,
               alGet_alSet_self _ _ _, mem_setAdd.2 (Or.inr hms)⟩
      · rw [alGet_alSet_ne _ _ hms] at hm
        obtain ⟨S, hS, hmS⟩ := invA m r hm
        by_cases hr : r = rid
        · subst hr
          refine ⟨setAdd ((alGet st.rooms r).getD []) sid,
                  alGet_alSet_self _ _ _, ?_⟩
          rw [hS]
          exact mem_setAdd.2 (Or.inl hmS)
        · rw [alGet_alSet_ne _ _ hr]
          exact ⟨S, hS, hmS⟩
    · intro r S m hrS hmS
      dsimp only at hrS hmS ⊢
      by_cases hr : r = rid
      · subst hr
        rw [alGet_alSet_self] at hrS
        have hSe : setAdd ((alGet st.rooms r).getD []) sid = S := by
          injection hrS
        rw [← hSe] at hmS
        by_cases hms : m = sid
        · subst hms
          rw [alGet_alSet_self]
        · rcases mem_setAdd.1 hmS with hm₀ | he
          · cases hS₀ : alGet st.rooms r with
            | none => rw [hS₀] at hm₀; simp at hm₀
            | some S₁ =>
              rw [hS₀] at hm₀
              rw [alGet_alSet_ne _ _ hms]
              exact invB r S₁ m hS₀ hm₀
          · exact absurd he hms
      · rw [alGet_alSet_ne _ _ hr] at hrS
        have hm' := invB r S m hrS hmS
        have hms : m ≠ sid := by
          intro he
          subst he
          exact hr (hns' r hm')
        rw [alGet_alSet_ne _ _ hms]
        exact hm'

/-- A disconnect preserves the agreement invariant. -/
theorem InvC1_disconnect {st : SrvState} {sid : SocketId}
    (hinv : InvC1 st) : InvC1 (handleDisconnect st sid).1 := by
  obtain ⟨invA, invB⟩ := hinv
  rcases handleDisconnect_cases st sid with
    ⟨hd, _⟩ | ⟨rid, hq, hrid, ⟨hr, hd⟩ | ⟨S, hr, hd⟩⟩
  · rw [hd]
    exact ⟨invA, invB⟩
  · rw [hd]
    constructor
    · intro m r hm
      dsimp only at hm ⊢
      by_cases hms : m = sid
      · subst hms
        rw [alGet_alDelete_self] at hm
        cases hm
      · rw [alGet_alDelete_ne _ hms] at hm
        exact invA m r hm
    · intro r S m hrS hmS
      dsimp only at hrS hmS ⊢
      have hm' := invB r S m hrS hmS
      have hms : m ≠ sid := by
        intro he
        subst he
        rw [hq] at hm'
        have : rid = r := by injection hm'
        subst this
        rw [hrS] at hr
        cases hr
      rw [alGet_alDelete_ne _ hms]
      exact hm'
  · rw [hd]
    by_cases hlen : (setDel S sid).length = 0
    · have hnil : setDel S sid = [] := List.length_eq_zero.1 hlen
      constructor
      · intro m r hm
        dsimp only at hm ⊢
        rw [if_pos hlen]
        by_cases hms : m = sid
        · subst hms
          rw [alGet_alDelete_self] at hm
          cases hm
        · rw [alGet_alDelete_ne _ hms] at hm
          obtain ⟨S', hS', hmS'⟩ := invA m r hm
          by_cases hrr : r = rid
          · subst hrr
            rw [hr] at hS'
            have he : S = S' := by injection hS'
            subst he
            have : m ∈ setDel S sid := mem_setDel.2 ⟨hmS', hms⟩
            rw [hnil] at this
            simp at this
          · rw [alGet_alDelete_ne _ hrr]
            exact ⟨S', hS', hmS'⟩
      · intro r S₂ m hrS hmS
        dsimp only at hrS hmS ⊢
        rw [if_pos hlen] at hrS
        by_cases hrr : r = rid
        · subst hrr
          rw [alGet_alDelete_self] at hrS
          cases hrS
        · rw [alGet_alDelete_ne _ hrr] at hrS
          have hm' := invB r S₂ m hrS hmS
          have hms : m ≠ sid := by
            intro he
            subst he
            rw [hq] at hm'
            have : rid = r := by injection hm'
            exact hrr this.symm
          rw [alGet_alDelete_ne _ hms]
          exact hm'
    · constructor
      · intro m r hm
        dsimp only at hm ⊢
        rw [if_neg hlen]
        by_cases hms : m = sid
        · subst hms
          rw [alGet_alDelete_self] at hm
          cases hm
        · rw [alGet_alDelete_ne _ hms] at hm
          obtain ⟨S', hS', hmS'⟩ := invA m r hm
          by_cases hrr : r = rid
          · subst hrr
            rw [hr] at hS'
            have he : S = S' := by injection hS'
            subst he
            exact ⟨setDel S sid, alGet_alSet_self _ _ _,
                   mem_setDel.2 ⟨hmS', hms⟩⟩
          · rw [alGet_alSet_ne _ _ hrr]
            exact ⟨S', hS', hmS'⟩
      · intro r S₂ m hrS hmS
        dsimp only at hrS hmS ⊢
        rw [if_neg hlen] at hrS
        by_cases hrr : r = rid
        · subst hrr
          rw [alGet_alSet_self] at hrS
          have he : setDel S sid = S₂ := by injection hrS
          rw [← he] at hmS
          obtain ⟨hmS', hms⟩ := mem_setDel.1 hmS
          rw [alGet_alDelete_ne _ hms]
          exact invB r S m hr hmS'
        · rw [alGet_alSet_ne _ _ hrr] at hrS
          have hm' := invB r S₂ m hrS hmS
          have hms : m ≠ sid := by
            intro he
            subst he
            rw [hq] at hm'
            have : rid = r := by injection hm'
            exact hrr this.symm
          rw [alGet_alDelete_ne _ hms]
          exact hm'

/-- Values of the reverse index are never the empty string, in every
reachable state: `join-room` rejects a falsy room id, and no other
event inserts into the index. -/
theorem socketRoom_ne_empty {st : SrvState} (h : ReachableW AnyEv st) :
    ∀ m r, alGet st.socketRoom m = some r → r ≠ "" := by
  induction h with
  | init => intro m r hm; cases hm
  | step hre hp hst ih =>
    rename_i st e st'
    intro m r hm
    cases e with
    | join sid p =>
      simp only [stepEv] at hst
      obtain ⟨es, hj⟩ := map_fst_eq_some hst
      rcases handleJoinRoom_cases hj with ⟨rfl, _⟩ | ⟨rid, hq, hrid, rfl, _⟩
      · exact ih m r hm
      · dsimp only at hm
        by_cases hms : m = sid
        · rw [hms, alGet_alSet_self] at hm
          have he : rid = r := by injection hm
          exact he ▸ hrid
        · rw [alGet_alSet_ne _ _ hms] at hm
          exact ih m r hm
    | offer sid p =>
      simp only [stepEv] at hst
      obtain ⟨es, hj⟩ := map_fst_eq_some hst
      rw [handleOffer_state hj] at hm
      exact ih m r hm
    | answer sid p =>
      simp only [stepEv] at hst
      obtain ⟨es, hj⟩ := map_fst_eq_some hst
      rw [handleAnswer_state hj] at hm
      exact ih m r hm
    | ice sid p =>
      simp only [stepEv] at hst
      obtain ⟨es, hj⟩ := map_fst_eq_some hst
      rw [handleIceCandidate_state hj] at hm
      exact ih m r hm
    | disconnect sid =>
      simp only [stepEv, Option.some_inj] at hst
      subst hst
      rcases handleDisconnect_cases st sid with
        ⟨hd, _⟩ | ⟨rid, hq, hrid, ⟨hr, hd⟩ | ⟨S, hr, hd⟩⟩
      · rw [hd] at hm
        exact ih m r hm
      · rw [hd] at hm
        dsimp only at hm
        by_cases hms : m = sid
        · rw [hms, alGet_alDelete_self] at hm
          cases hm
        · rw [alGet_alDelete_ne _ hms] at hm
          exact ih m r hm
      · rw [hd] at hm
        dsimp only at hm
        by_cases hms : m = sid
        · rw [hms, alGet_alDelete_self] at hm
          cases hm
        · rw [alGet_alDelete_ne _ hms] at hm
          exact ih m r hm
    | createRoom rid =>
      simp only [stepEv, Option.some_inj] at hst
      subst hst
      exact ih m r hm

/-- Every room present in the directory has a non-empty member set. -/
def RoomsNonEmpty (st : SrvState) : Prop :=
  ∀ r S, alGet st.rooms r = some S → S ≠ []

/-- A join preserves non-emptiness of all room entries. -/
theorem RoomsNonEmpty_join {st st' : SrvState} {sid : SocketId} {p : JVal}
    {es : List Emit} (hinv : RoomsNonEmpty st)
    (h : handleJoinRoom st sid p = some (st', es)) : RoomsNonEmpty st' := by
  rcases handleJoinRoom_cases h with ⟨rfl, _⟩ | ⟨rid, hq, hrid, rfl, _⟩
  · exact hinv
  · intro r S hrS
    dsimp only at hrS
    by_cases hr : r = rid
    · subst hr
      rw [alGet_alSet_self] at hrS
      have he : setAdd ((alGet st.rooms r).getD []) sid = S := by
        injection hrS
      rw [← he]
      exact setAdd_ne_nil _ _
    · rw [alGet_alSet_ne _ _ hr] at hrS
      exact hinv r S hrS

/-- A disconnect preserves non-emptiness of all room entries. -/
theorem RoomsNonEmpty_disconnect {st : SrvState} {sid : SocketId}
    (hinv : RoomsNonEmpty st) : RoomsNonEmpty (handleDisconnect st sid).1 := by
  rcases handleDisconnect_cases st sid with
    ⟨hd, _⟩ | ⟨rid, hq, hrid, ⟨hr, hd⟩ | ⟨S, hr, hd⟩⟩
  · rw [hd]; exact hinv
  · rw [hd]
    intro r S hrS
    exact hinv r S hrS
  · rw [hd]
    intro r S₂ hrS
    dsimp only at hrS
    by_cases hlen : (setDel S sid).length = 0
    · rw [if_pos hlen] at hrS
      by_cases hrr : r = rid
      · subst hrr
        rw [alGet_alDelete_self] at hrS
        cases hrS
      · rw [alGet_alDelete_ne _ hrr] at hrS
        exact hinv r S₂ hrS
    · rw [if_neg hlen] at hrS
      by_cases hrr : r = rid
      · subst hrr
        rw [alGet_alSet_self] at hrS
        have he : setDel S sid = S₂ := by injection hrS
        rw [← he]
        intro hnil
        exact hlen (by rw [hnil]; rfl)
      · rw [alGet_alSet_ne _ _ hrr] at hrS
        exact hinv r S₂ hrS

/-- The agreement invariant holds in every state reachable by
switch-free join-room and disconnect events. -/
theorem invC1_reachable {st : SrvState} (h : ReachableW C1Allowed st) :
    InvC1 st := by
  induction h with
  | init =>
    exact ⟨(fun m r hm => by cases hm), (fun r S m hrS => by cases hrS)⟩
  | step hre hp hst ih =>
    rename_i st e st'
    cases e with
    | join sid p =>
      simp only [stepEv] at hst
      obtain ⟨es, hj⟩ := map_fst_eq_some hst
      exact InvC1_join ih hp hj
    | offer sid p => exact hp.elim
    | answer sid p => exact hp.elim
    | ice sid p => exact hp.elim
    | disconnect sid =>
      simp only [stepEv, Option.some_inj] at hst
      subst hst
      exact InvC1_disconnect ih
    | createRoom rid => exact hp.elim

/-- C1 (counterexample): the claim quantifies over all sequences of
join-room and disconnect events, including a join-room from a
connection already in a different room.  The sequence
join("m","A"); join("m","B") reaches a state where "m" is still in
room "A"'s member set while the reverse index maps "m" to "B", so the
forward and reverse maps disagree. -/
theorem c1_counterexample :
    ReachableW JoinDisc ⟨[("A", ["m"]), ("B", ["m"])], [("m", "B")]⟩ ∧
    ¬ Agree ⟨[("A", ["m"]), ("B", ["m"])], [("m", "B")]⟩ := by
  constructor
  · exact
      @ReachableW.step JoinDisc ⟨[("A", ["m"])], [("m", "A")]⟩
        (Event.join "m" (JVal.obj [("roomId", JVal.str "B")]))
        ⟨[("A", ["m"]), ("B", ["m"])], [("m", "B")]⟩
        (@ReachableW.step JoinDisc ⟨[], []⟩
          (Event.join "m" (JVal.obj [("roomId", JVal.str "A")]))
          ⟨[("A", ["m"])], [("m", "A")]⟩
          ReachableW.init trivial rfl)
        trivial rfl
  · intro hA
    have hm : ("m" : SocketId) ∈ (["m"] : List SocketId) := by decide
    have := (hA "A" ["m"] "m" rfl).1 hm
    exact absurd this (by decide)

/-- C1 (amended): for every sequence of join-room and disconnect
events in which no connection that is already mapped to one room sends
a join-room for a different room, the forward and reverse maps agree:
for every room r in the directory and every connection m, m is in r's
member set if and only if the reverse index maps m to r's id. -/
theorem c1_agreement_no_switch {st : SrvState}
    (h : ReachableW C1Allowed st) : Agree st :=
  invC1_agree (invC1_reachable h)

/-- C1 witness: a concrete switch-free sequence (join "m" "A",
disconnect "m", join "m" "B") whose final state satisfies the
agreement invariant. -/
theorem c1_agreement_no_switch_witness :
    Agree ⟨[("B", ["m"])], [("m", "B")]⟩ :=
  c1_agreement_no_switch
    (@ReachableW.step C1Allowed ⟨[], []⟩
      (Event.join "m" (JVal.obj [("roomId", JVal.str "B")]))
      ⟨[("B", ["m"])], [("m", "B")]⟩
      (@ReachableW.step C1Allowed ⟨[("A", ["m"])], [("m", "A")]⟩
        (Event.disconnect "m")
        ⟨[], []⟩
        (@ReachableW.step C1Allowed ⟨[], []⟩
          (Event.join "m" (JVal.obj [("roomId", JVal.str "A")]))
          ⟨[("A", ["m"])], [("m", "A")]⟩
          ReachableW.init
          (fun _ _ _ r hr => absurd hr (by intro hc; cases hc))
          rfl)
        trivial rfl)
      (fun _ _ _ r hr => absurd hr (by intro hc; cases hc))
      rfl)

/-- C3 (counterexample): the create-room endpoint registers an empty
member set, so the state reached from the initial state by one
create-room event contains a room with zero members. -/
theorem c3_counterexample :
    ReachableW AnyEv ⟨[("R", [])], []⟩ ∧
    ¬ RoomsNonEmpty ⟨[("R", [])], []⟩ := by
  constructor
  · exact
      @ReachableW.step AnyEv ⟨[], []⟩ (Event.createRoom "R")
        ⟨[("R", [])], []⟩ ReachableW.init trivial rfl
  · intro hne
    exact hne "R" [] rfl rfl

/-- C3 (amended): in every state reachable by join-room, relay and
disconnect events alone (the create-room provisioning endpoint
excluded), every entry of the room directory has a non-empty member
set. -/
theorem c3_no_empty_rooms_without_provisioning {st : SrvState}
    (h : ReachableW NoCreate st) : RoomsNonEmpty st := by
  induction h with
  | init => exact fun r S hrS => by cases hrS
  | step hre hp hst ih =>
    rename_i st e st'
    cases e with
    | join sid p =>
      simp only [stepEv] at hst
      obtain ⟨es, hj⟩ := map_fst_eq_some hst
      exact RoomsNonEmpty_join ih hj
    | offer sid p =>
      simp only [stepEv] at hst
      obtain ⟨es, hj⟩ := map_fst_eq_some hst
      rw [handleOffer_state hj]
      exact ih
    | answer sid p =>
      simp only [stepEv] at hst
      obtain ⟨es, hj⟩ := map_fst_eq_some hst
      rw [handleAnswer_state hj]
      exact ih
    | ice sid p =>
      simp only [stepEv] at hst
      obtain ⟨es, hj⟩ := map_fst_eq_some hst
      rw [handleIceCandidate_state hj]
      exact ih
    | disconnect sid =>
      simp only [stepEv, Option.some_inj] at hst
      subst hst
      exact RoomsNonEmpty_disconnect ih
    | createRoom rid => exact hp.elim

/-- C3 witness: after the lazily creating join of "a" into "R", the
only room in the directory has the non-empty member set containing
"a". -/
theorem c3_no_empty_rooms_witness :
    RoomsNonEmpty ⟨[("R", ["a"])], [("a", "R")]⟩ :=
  c3_no_empty_rooms_without_provisioning
    (@ReachableW.step NoCreate ⟨[], []⟩
      (Event.join "a" (JVal.obj [("roomId", JVal.str "R")]))
      ⟨[("R", ["a"])], [("a", "R")]⟩
      ReachableW.init trivial rfl)

/-- C4: each of the four client-message handlers destructures its
payload, so a missing (undefined) or null payload makes the handler
throw a TypeError (modelled as `none`) instead of dropping the
message; the spec requires malformed messages never to crash. -/
theorem c4_handlers_throw_on_missing_payload :
    handleJoinRoom initState "s" JVal.undef = none ∧
    handleOffer initState "s" JVal.undef = none ∧
    handleAnswer initState "s" JVal.undef = none ∧
    handleIceCandidate initState "s" JVal.undef = none ∧
    handleJoinRoom initState "s" JVal.null = none ∧
    handleOffer initState "s" JVal.null = none ∧
    handleAnswer initState "s" JVal.null = none ∧
    handleIceCandidate initState "s" JVal.null = none :=
  ⟨rfl, rfl, rfl, rfl, rfl, rfl, rfl, rfl⟩

/-- C5: a join-room whose roomId is absent, not a string, or the empty
string is rejected: the state is returned unchanged and no message is
sent. -/
theorem c5_invalid_join_rejected (st : SrvState) (sid : SocketId)
    (p v : JVal) (hv : jget p "roomId" = some v)
    (hbad : truthy v = false ∨ isString v = false) :
    handleJoinRoom st sid p = some (st, []) := by
  unfold handleJoinRoom
  rw [hv]
  cases v with
  | str s =>
    rcases hbad with hb | hb
    · simp only [truthy, bne_eq_false_iff_eq] at hb
      dsimp only
      rw [if_pos hb]
    · simp [isString] at hb
  | undef => rfl
  | null => rfl
  | bool b => rfl
  | num n => rfl
  | obj fs => rfl

/-- C5 witness: joining with an empty-string room id from the initial
state changes nothing and emits nothing. -/
theorem c5_invalid_join_rejected_witness :
    handleJoinRoom initState "s" (JVal.obj [("roomId", JVal.str "")]) =
      some (initState, []) :=
  c5_invalid_join_rejected initState "s" _ (JVal.str "") rfl
    (Or.inl (by decide))

/-- C6: a successful join with a non-empty string roomId sends the
joiner a room-users list equal to the room's member snapshot at the
moment of the call minus the joiner, and a join to an absent room
creates it with the joiner as sole member and an empty list. -/
theorem c6_join_snapshot (st : SrvState) (sid : SocketId) (p : JVal)
    (rid : RoomId) (hq : jget p "roomId" = some (.str rid))
    (hne : rid ≠ "") :
    handleJoinRoom st sid p =
      some ({ rooms := alSet st.rooms rid
                (setAdd ((alGet st.rooms rid).getD []) sid),
              socketRoom := alSet st.socketRoom sid rid },
            [Emit.selfEmit "room-users"
               (.users (((alGet st.rooms rid).getD []).filter
                 (fun x => x ≠ sid))),
             Emit.toRoom rid "user-joined" (.peer sid)]) ∧
    (alGet st.rooms rid = none →
      ((alGet st.rooms rid).getD []).filter (fun x => x ≠ sid) = [] ∧
      alGet (alSet st.rooms rid
        (setAdd ((alGet st.rooms rid).getD []) sid)) rid = some [sid]) := by
  constructor
  · unfold handleJoinRoom
    rw [hq]
    dsimp only
    rw [if_neg hne, filter_setAdd_self]
  · intro hnone
    rw [hnone]
    constructor
    · rfl
    · rw [alGet_alSet_self]
      rfl

/-- C6 witness: "a" joins existing room "R" = ("b" alone) and receives
the snapshot ["b"]; the map now holds both members. -/
theorem c6_join_snapshot_witness :
    handleJoinRoom ⟨[("R", ["b"])], [("b", "R")]⟩ "a"
        (JVal.obj [("roomId", JVal.str "R")]) =
      some (⟨[("R", ["b", "a"])], [("b", "R"), ("a", "R")]⟩,
            [Emit.selfEmit "room-users" (EPayload.users ["b"]),
             Emit.toRoom "R" "user-joined" (EPayload.peer "a")]) :=
  (c6_join_snapshot ⟨[("R", ["b"])], [("b", "R")]⟩ "a"
    (JVal.obj [("roomId", JVal.str "R")]) "R" rfl (by decide)).1

/-- C7: when the sole member of a room disconnects, the room entry is
deleted: looking the room up afterwards yields none. -/
theorem c7_sole_member_disconnect_deletes_room (st : SrvState)
    (sid : SocketId) (rid : RoomId)
    (hq : alGet st.socketRoom sid = some rid) (hne : rid ≠ "")
    (hr : alGet st.rooms rid = some [sid]) :
    alGet (handleDisconnect st sid).1.rooms rid = none := by
  unfold handleDisconnect
  rw [hq]
  dsimp only
  rw [if_neg hne, hr]
  dsimp only
  have hnil : setDel [sid] sid = [] := by simp [setDel]
  rw [hnil]
  have hzero : ([] : List SocketId).length = 0 := rfl
  rw [if_pos hzero]
  exact alGet_alDelete_self _ _

/-- C7 witness: "a", alone in "R", disconnects; the lookup of "R"
afterwards yields none. -/
theorem c7_sole_member_disconnect_witness :
    alGet (handleDisconnect ⟨[("R", ["a"])], [("a", "R")]⟩ "a").1.rooms "R" =
      none :=
  c7_sole_member_disconnect_deletes_room ⟨[("R", ["a"])], [("a", "R")]⟩
    "a" "R" rfl (by decide) rfl

/-- C8: disconnecting a connection with no reverse-index entry is a
no-op: the state is unchanged and nothing is broadcast. -/
theorem c8_disconnect_without_room_noop (st : SrvState) (sid : SocketId)
    (h : alGet st.socketRoom sid = none) :
    handleDisconnect st sid = (st, []) := by
  unfold handleDisconnect
  rw [h]

/-- C8 witness: a disconnect on the initial state is a no-op. -/
theorem c8_disconnect_without_room_noop_witness :
    handleDisconnect initState "z" = (initState, []) :=
  c8_disconnect_without_room_noop initState "z" rfl

/-- C10: a connection in room a that sends join-room for a different
room b is accepted: the reverse index now maps it to b, it is a member
of b, and room a's entry (still containing it) is untouched. -/
theorem c10_rejoin_keeps_stale_membership (st : SrvState)
    (sid : SocketId) (a b : RoomId) (p : JVal)
    (ha : alGet st.socketRoom sid = some a) (hab : a ≠ b) (hb : b ≠ "")
    (hq : jget p "roomId" = some (.str b)) :
    ∃ st' es, handleJoinRoom st sid p = some (st', es) ∧
      alGet st'.socketRoom sid = some b ∧
      sid ∈ (alGet st'.rooms b).getD [] ∧
      alGet st'.rooms a = alGet st.rooms a := by
  refine ⟨⟨alSet st.rooms b (setAdd ((alGet st.rooms b).getD []) sid),
           alSet st.socketRoom sid b⟩,
          [Emit.selfEmit "room-users"
             (.users ((setAdd ((alGet st.rooms b).getD []) sid).filter
               (fun x => x ≠ sid))),
           Emit.toRoom b "user-joined" (.peer sid)], ?_, ?_, ?_, ?_⟩
  · unfold handleJoinRoom
    rw [hq]
    dsimp only
    rw [if_neg hb]
  · dsimp only
    exact alGet_alSet_self _ _ _
  · dsimp only
    rw [alGet_alSet_self]
    exact mem_setAdd.2 (Or.inr rfl)
  · dsimp only
    exact alGet_alSet_ne _ _ hab

/-- C10 witness: "m" in room "A" joins "B"; it is indexed to "B",
member of "B", and room "A" still lists it. -/
theorem c10_rejoin_keeps_stale_membership_witness :
    ∃ st' es, handleJoinRoom ⟨[("A", ["m"])], [("m", "A")]⟩ "m"
        (JVal.obj [("roomId", JVal.str "B")]) = some (st', es) ∧
      alGet st'.socketRoom "m" = some "B" ∧
      "m" ∈ (alGet st'.rooms "B").getD [] ∧
      alGet st'.rooms "A" =
        alGet (⟨[("A", ["m"])], [("m", "A")]⟩ : SrvState).rooms "A" :=
  c10_rejoin_keeps_stale_membership ⟨[("A", ["m"])], [("m", "A")]⟩
    "m" "A" "B" (JVal.obj [("roomId", JVal.str "B")]) rfl (by decide)
    (by decide) rfl

/-- A dropped relay message produced no emits. -/
theorem drop_emits_eq_nil {st st' : SrvState} {es : List Emit}
    (h : (some (st, ([] : List Emit)) : Option (SrvState × List Emit)) =
      some (st', es)) : es = [] := by
  simp only [Option.some_inj, Prod.mk.injEq] at h
  exact h.2.symm

/-- A forwarded relay message produced exactly its one emit. -/
theorem fwd_emits_eq {st st' : SrvState} {es : List Emit} {e₀ : Emit}
    (h : (some (st, [e₀]) : Option (SrvState × List Emit)) =
      some (st', es)) : es = [e₀] := by
  simp only [Option.some_inj, Prod.mk.injEq] at h
  exact h.2.symm

/-- C9: every message emitted by the offer, answer, or ice-candidate
handler is addressed to the named target only, carries the sender's id
as the from field, and passes the opaque sdp/candidate blob through
verbatim. -/
theorem c9_relay_verbatim_to_target_only (st : SrvState) (sid : SocketId)
    (p : JVal) (st' : SrvState) (es : List Emit) :
    (handleOffer st sid p = some (st', es) → ∀ e ∈ es, ∃ t v,
       jget p "target" = some (.str t) ∧ jget p "sdp" = some v ∧
       e = Emit.toPeer t "offer" (.relay sid v)) ∧
    (handleAnswer st sid p = some (st', es) → ∀ e ∈ es, ∃ t v,
       jget p "target" = some (.str t) ∧ jget p "sdp" = some v ∧
       e = Emit.toPeer t "answer" (.relay sid v)) ∧
    (handleIceCandidate st sid p = some (st', es) → ∀ e ∈ es, ∃ t v,
       jget p "target" = some (.str t) ∧ jget p "candidate" = some v ∧
       e = Emit.toPeer t "ice-candidate" (.relay sid v)) := by
  refine ⟨?_, ?_, ?_⟩
  · intro h e he
    unfold handleOffer at h
    cases hq : jget p "target" with
    | none =>
      rw [hq] at h
      cases hv : jget p "sdp" with
      | none => rw [hv] at h; cases h
      | some sv => rw [hv] at h; cases h
    | some tv =>
      rw [hq] at h
      cases hv : jget p "sdp" with
      | none => rw [hv] at h; cases h
      | some sv =>
        rw [hv] at h
        dsimp only at h
        by_cases htr : (truthy tv && truthy sv) = true
        · rw [if_pos htr] at h
          cases hsr : alGet st.socketRoom sid with
          | none =>
            rw [hsr] at h
            rw [drop_emits_eq_nil h] at he
            cases he
          | some fr =>
            rw [hsr] at h
            dsimp only at h
            by_cases hfr : fr = ""
            · rw [if_pos hfr] at h
              rw [drop_emits_eq_nil h] at he
              cases he
            · rw [if_neg hfr] at h
              cases tv with
              | str t =>
                dsimp only at h
                by_cases hto : alGet st.socketRoom t = some fr
                · rw [if_pos hto] at h
                  rw [fwd_emits_eq h] at he
                  exact ⟨t, sv, rfl, rfl, List.mem_singleton.1 he⟩
                · rw [if_neg hto] at h
                  rw [drop_emits_eq_nil h] at he
                  cases he
              | undef => rw [drop_emits_eq_nil h] at he; cases he
              | null => rw [drop_emits_eq_nil h] at he; cases he
              | bool bb => rw [drop_emits_eq_nil h] at he; cases he
              | num nn => rw [drop_emits_eq_nil h] at he; cases he
              | obj fs => rw [drop_emits_eq_nil h] at he; cases he
        · rw [if_neg htr] at h
          rw [drop_emits_eq_nil h] at he
          cases he
  · intro h e he
    unfold handleAnswer at h
    cases hq : jget p "target" with
    | none =>
      rw [hq] at h
      cases hv : jget p "sdp" with
      | none => rw [hv] at h; cases h
      | some sv => rw [hv] at h; cases h
    | some tv =>
      rw [hq] at h
      cases hv : jget p "sdp" with
      | none => rw [hv] at h; cases h
      | some sv =>
        rw [hv] at h
        dsimp only at h
        by_cases htr : (truthy tv && truthy sv) = true
        · rw [if_pos htr] at h
          cases hsr : alGet st.socketRoom sid with
          | none =>
            rw [hsr] at h
            rw [drop_emits_eq_nil h] at he
            cases he
          | some fr =>
            rw [hsr] at h
            dsimp only at h
            by_cases hfr : fr = ""
            · rw [if_pos hfr] at h
              rw [drop_emits_eq_nil h] at he
              cases he
            · rw [if_neg hfr] at h
              cases tv with
              | str t =>
                dsimp only at h
                by_cases hto : alGet st.socketRoom t = some fr
                · rw [if_pos hto] at h
                  rw [fwd_emits_eq h] at he
                  exact ⟨t, sv, rfl, rfl, List.mem_singleton.1 he⟩
                · rw [if_neg hto] at h
                  rw [drop_emits_eq_nil h] at he
                  cases he
              | undef => rw [drop_emits_eq_nil h] at he; cases he
              | null => rw [drop_emits_eq_nil h] at he; cases he
              | bool bb => rw [drop_emits_eq_nil h] at he; cases he
              | num nn => rw [drop_emits_eq_nil h] at he; cases he
              | obj fs => rw [drop_emits_eq_nil h] at he; cases he
        · rw [if_neg htr] at h
          rw [drop_emits_eq_nil h] at he
          cases he
  · intro h e he
    unfold handleIceCandidate at h
    cases hq : jget p "target" with
    | none =>
      rw [hq] at h
      cases hv : jget p "candidate" with
      | none => rw [hv] at h; cases h
      | some sv => rw [hv] at h; cases h
    | some tv =>
      rw [hq] at h
      cases hv : jget p "candidate" with
      | none => rw [hv] at h; cases h
      | some sv =>
        rw [hv] at h
        dsimp only at h
        by_cases htr : (truthy tv && truthy sv) = true
        · rw [if_pos htr] at h
          cases hsr : alGet st.socketRoom sid with
          | none =>
            rw [hsr] at h
            rw [drop_emits_eq_nil h] at he
            cases he
          | some fr =>
            rw [hsr] at h
            dsimp only at h
            by_cases hfr : fr = ""
            · rw [if_pos hfr] at h
              rw [drop_emits_eq_nil h] at he
              cases he
            · rw [if_neg hfr] at h
              cases tv with
              | str t =>
                dsimp only at h
                by_cases hto : alGet st.socketRoom t = some fr
                · rw [if_pos hto] at h
                  rw [fwd_emits_eq h] at he
                  exact ⟨t, sv, rfl, rfl, List.mem_singleton.1 he⟩
                · rw [if_neg hto] at h
                  rw [drop_emits_eq_nil h] at he
                  cases he
              | undef => rw [drop_emits_eq_nil h] at he; cases he
              | null => rw [drop_emits_eq_nil h] at he; cases he
              | bool bb => rw [drop_emits_eq_nil h] at he; cases he
              | num nn => rw [drop_emits_eq_nil h] at he; cases he
              | obj fs => rw [drop_emits_eq_nil h] at he; cases he
        · rw [if_neg htr] at h
          rw [drop_emits_eq_nil h] at he
          cases he

/-- C9 witness: a concrete forwarded offer between the two members of
room "R" is the single toPeer emit to the target, from the sender,
with the sdp "x" verbatim. -/
theorem c9_relay_verbatim_witness :
    ∃ t v,
      jget (JVal.obj [("target", JVal.str "b"), ("sdp", JVal.str "x")])
        "target" = some (JVal.str t) ∧
      jget (JVal.obj [("target", JVal.str "b"), ("sdp", JVal.str "x")])
        "sdp" = some v ∧
      Emit.toPeer "b" "offer" (EPayload.relay "a" (JVal.str "x")) =
        Emit.toPeer t "offer" (EPayload.relay "a" v) :=
  (c9_relay_verbatim_to_target_only
      ⟨[("R", ["a", "b"])], [("a", "R"), ("b", "R")]⟩ "a"
      (JVal.obj [("target", JVal.str "b"), ("sdp", JVal.str "x")])
      ⟨[("R", ["a", "b"])], [("a", "R"), ("b", "R")]⟩
      [Emit.toPeer "b" "offer" (EPayload.relay "a" (JVal.str "x"))]).1
    rfl
    (Emit.toPeer "b" "offer" (EPayload.relay "a" (JVal.str "x")))
    (List.mem_singleton.2 rfl)

/-- A reachable state with connections "a" and "b" both in room "R":
reached by two joins from the initial state. -/
theorem reach_two_in_R :
    ReachableW AnyEv ⟨[("R", ["a", "b"])], [("a", "R"), ("b", "R")]⟩ :=
  @ReachableW.step AnyEv ⟨[("R", ["a"])], [("a", "R")]⟩
    (Event.join "b" (JVal.obj [("roomId", JVal.str "R")]))
    ⟨[("R", ["a", "b"])], [("a", "R"), ("b", "R")]⟩
    (@ReachableW.step AnyEv ⟨[], []⟩
      (Event.join "a" (JVal.obj [("roomId", JVal.str "R")]))
      ⟨[("R", ["a"])], [("a", "R")]⟩
      ReachableW.init trivial rfl)
    trivial rfl

/-- C2 (counterexample): in a reachable state where "a" and "b" are
mapped to the same room "R", an offer from "a" naming target "b" whose
sdp field is present but the empty string is dropped: "b" receives
nothing although both required fields are present and sender and
target share a room, against the claimed iff. -/
theorem c2_counterexample :
    ReachableW AnyEv ⟨[("R", ["a", "b"])], [("a", "R"), ("b", "R")]⟩ ∧
    jget (JVal.obj [("target", JVal.str "b"), ("sdp", JVal.str "")])
      "target" = some (JVal.str "b") ∧
    jget (JVal.obj [("target", JVal.str "b"), ("sdp", JVal.str "")])
      "sdp" = some (JVal.str "") ∧
    SameRoom ⟨[("R", ["a", "b"])], [("a", "R"), ("b", "R")]⟩ "a" "b" ∧
    handleOffer ⟨[("R", ["a", "b"])], [("a", "R"), ("b", "R")]⟩ "a"
      (JVal.obj [("target", JVal.str "b"), ("sdp", JVal.str "")]) =
      some (⟨[("R", ["a", "b"])], [("a", "R"), ("b", "R")]⟩, []) :=
  ⟨reach_two_in_R, rfl, rfl, ⟨"R", rfl, rfl⟩, rfl⟩

/-- C2 (amended): in any reachable state, for an offer, answer, or
ice-candidate message whose required fields are present and truthy,
the named target receives the forwarded message if and only if sender
and target are currently mapped to the same room identifier; otherwise
nothing is emitted and no error is sent; in all cases the state is
unchanged. -/
theorem c2_relay_iff_same_room {st : SrvState}
    (hre : ReachableW AnyEv st) :
    (∀ sid p t v, jget p "target" = some (.str t) → t ≠ "" →
       jget p "sdp" = some v → truthy v = true →
       ((SameRoom st sid t → handleOffer st sid p =
           some (st, [Emit.toPeer t "offer" (.relay sid v)])) ∧
        (¬ SameRoom st sid t → handleOffer st sid p = some (st, [])))) ∧
    (∀ sid p t v, jget p "target" = some (.str t) → t ≠ "" →
       jget p "sdp" = some v → truthy v = true →
       ((SameRoom st sid t → handleAnswer st sid p =
           some (st, [Emit.toPeer t "answer" (.relay sid v)])) ∧
        (¬ SameRoom st sid t → handleAnswer st sid p = some (st, [])))) ∧
    (∀ sid p t v, jget p "target" = some (.str t) → t ≠ "" →
       jget p "candidate" = some v → truthy v = true →
       ((SameRoom st sid t → handleIceCandidate st sid p =
           some (st, [Emit.toPeer t "ice-candidate" (.relay sid v)])) ∧
        (¬ SameRoom st sid t →
           handleIceCandidate st sid p = some (st, [])))) := by
  refine ⟨?_, ?_, ?_⟩
  · intro sid p t v hq ht hv htr
    have htt : truthy (JVal.str t) = true := by simp [truthy, ht]
    have hcond : (truthy (JVal.str t) && truthy v) = true := by
      rw [htt, htr]
      rfl
    constructor
    · rintro ⟨r, hsr, hst2⟩
      unfold handleOffer
      rw [hq, hv]
      dsimp only
      rw [if_pos hcond, hsr]
      dsimp only
      have hrne : ¬ r = "" := socketRoom_ne_empty hre sid r hsr
      rw [if_neg hrne]
      rw [if_pos hst2]
    · intro hns
      unfold handleOffer
      rw [hq, hv]
      dsimp only
      rw [if_pos hcond]
      cases hsr : alGet st.socketRoom sid with
      | none => rfl
      | some fr =>
        dsimp only
        have hfr : ¬ fr = "" := socketRoom_ne_empty hre sid fr hsr
        rw [if_neg hfr]
        have hto : ¬ alGet st.socketRoom t = some fr := by
          intro hcontra
          exact hns ⟨fr, hsr, hcontra⟩
        rw [if_neg hto]
  · intro sid p t v hq ht hv htr
    have htt : truthy (JVal.str t) = true := by simp [truthy, ht]
    have hcond : (truthy (JVal.str t) && truthy v) = true := by
      rw [htt, htr]
      rfl
    constructor
    · rintro ⟨r, hsr, hst2⟩
      unfold handleAnswer
      rw [hq, hv]
      dsimp only
      rw [if_pos hcond, hsr]
      dsimp only
      have hrne : ¬ r = "" := socketRoom_ne_empty hre sid r hsr
      rw [if_neg hrne]
      rw [if_pos hst2]
    · intro hns
      unfold handleAnswer
      rw [hq, hv]
      dsimp only
      rw [if_pos hcond]
      cases hsr : alGet st.socketRoom sid with
      | none => rfl
      | some fr =>
        dsimp only
        have hfr : ¬ fr = "" := socketRoom_ne_empty hre sid fr hsr
        rw [if_neg hfr]
        have hto : ¬ alGet st.socketRoom t = some fr := by
          intro hcontra
          exact hns ⟨fr, hsr, hcontra⟩
        rw [if_neg hto]
  · intro sid p t v hq ht hv htr
    have htt : truthy (JVal.str t) = true := by simp [truthy, ht]
    have hcond : (truthy (JVal.str t) && truthy v) = true := by
      rw [htt, htr]
      rfl
    constructor
    · rintro ⟨r, hsr, hst2⟩
      unfold handleIceCandidate
      rw [hq, hv]
      dsimp only
      rw [if_pos hcond, hsr]
      dsimp only
      have hrne : ¬ r = "" := socketRoom_ne_empty hre sid r hsr
      rw [if_neg hrne]
      rw [if_pos hst2]
    · intro hns
      unfold handleIceCandidate
      rw [hq, hv]
      dsimp only
      rw [if_pos hcond]
      cases hsr : alGet st.socketRoom sid with
      | none => rfl
      | some fr =>
        dsimp only
        have hfr : ¬ fr = "" := socketRoom_ne_empty hre sid fr hsr
        rw [if_neg hfr]
        have hto : ¬ alGet st.socketRoom t = some fr := by
          intro hcontra
          exact hns ⟨fr, hsr, hcontra⟩
        rw [if_neg hto]

/-- C2 witness: in the reachable state with "a" and "b" in room "R",
an offer from "a" to "b" with truthy sdp "x" is forwarded to "b". -/
theorem c2_relay_iff_same_room_witness :
    handleOffer ⟨[("R", ["a", "b"])], [("a", "R"), ("b", "R")]⟩ "a"
        (JVal.obj [("target", JVal.str "b"), ("sdp", JVal.str "x")]) =
      some (⟨[("R", ["a", "b"])], [("a", "R"), ("b", "R")]⟩,
            [Emit.toPeer "b" "offer" (EPayload.relay "a" (JVal.str "x"))]) :=
  ((c2_relay_iff_same_room reach_two_in_R).1 "a"
      (JVal.obj [("target", JVal.str "b"), ("sdp", JVal.str "x")])
      "b" (JVal.str "x") rfl (by decide) rfl (by decide)).1
    ⟨"R", rfl, rfl⟩
